import Mathlib

/-!
Verification of the gradient compression strategies in
`horovod/tensorflow/compression.py`: the NoneCompressor (identity),
FP16Compressor (downcast to half precision) and INT8Compressor
(affine min/max quantization to signed 8-bit integers).

Modelling choices.  Tensor element values are modelled as exact
rationals; a tensor is a dtype tag together with a list of element
values.  `tf.math.round` rounds half to even, `tf.clip_by_value`
is minimum-of-maximum, and a cast to an integer dtype truncates
toward zero (with 8-bit wrap-around for int8, which the compressors
never trigger because they clip first).  A cast between floating
dtypes keeps the value exactly; the claims about FP16Compressor
concern its case analysis and dtype bookkeeping, not half-precision
rounding.  Python true division `2**(8-1)/horovod_size` becomes
exact division in the rationals.
-/

/-- The tensor element dtypes relevant to the compressors: the
floating family and several non-floating dtypes. -/
inductive DType where
  | float16 : DType
  | float32 : DType
  | float64 : DType
  | int8 : DType
  | int32 : DType
  | int64 : DType
  deriving DecidableEq, Repr

/-- Whether a dtype is in the floating-point family
(the `dtype.is_floating` test of the source). -/
def DType.is_floating : DType → Bool
  | .float16 => true
  | .float32 => true
  | .float64 => true
  | _ => false

/-- A tensor: a dtype tag and the list of element values. -/
structure Tensor where
  dtype : DType
  data : List ℚ
  deriving DecidableEq, Repr

/-- Truncation of a rational toward zero, the value semantics of a
cast from a floating value to an integer dtype. -/
def ratTrunc (q : ℚ) : ℤ :=
  if q < 0 then ⌈q⌉ else ⌊q⌋

/-- Wrap an integer into the signed 8-bit range, the overflow
behaviour of a cast to int8. -/
def wrap8 (n : ℤ) : ℤ :=
  (n + 128) % 256 - 128

/-- Value semantics of `tf.cast` to dtype `d`: exact for floating
targets, truncation toward zero for integer targets, with 8-bit
wrap-around for int8. -/
def castVal (d : DType) (q : ℚ) : ℚ :=
  if d.is_floating then q
  else if d = .int8 then ((wrap8 (ratTrunc q) : ℤ) : ℚ)
  else ((ratTrunc q : ℤ) : ℚ)

/-- `tf.cast`: retag the tensor with dtype `d` and convert each
element value. -/
def tf_cast (t : Tensor) (d : DType) : Tensor :=
  ⟨d, t.data.map (castVal d)⟩

/-- `tf.math.round`: round to the nearest integer, ties to even. -/
def roundHalfEven (q : ℚ) : ℤ :=
  if q - ⌊q⌋ < 1 / 2 then ⌊q⌋
  else if 1 / 2 < q - ⌊q⌋ then ⌊q⌋ + 1
  else if ⌊q⌋ % 2 = 0 then ⌊q⌋ else ⌊q⌋ + 1

/-- `tf.clip_by_value t lo hi`, computed as
minimum (maximum t lo) hi. -/
def clip_by_value (q lo hi : ℚ) : ℚ :=
  min (max q lo) hi

namespace NoneCompressor

/-- Returns the tensor unmodified, with an empty context. -/
def compress (tensor : Tensor) : Tensor × Option DType :=
  (tensor, none)

/-- Returns the tensor unmodified. -/
def decompress (tensor : Tensor) (ctx : Option DType) : Tensor :=
  tensor

end NoneCompressor

namespace FP16Compressor

/-- Downcasts the tensor to 16-bit when its dtype is floating. -/
def compress (tensor : Tensor) : Tensor × DType :=
  let tensor_compressed :=
    if tensor.dtype.is_floating then tf_cast tensor .float16 else tensor
  (tensor_compressed, tensor.dtype)

/-- Upcasts the tensor to the dtype recorded in the context when
that dtype is floating. -/
def decompress (tensor : Tensor) (ctx : DType) : Tensor :=
  if ctx.is_floating then tf_cast tensor ctx else tensor

end FP16Compressor

namespace INT8Compressor

/-- Quantizes one element: normalize by the global range, affine-map
into the shrunk valid range, round, clip, leave the value ready for
the int8 cast. -/
def quantizeVal (horovod_size : ℕ) (global_max global_min x : ℚ) : ℚ :=
  let valid_max : ℚ := 2 ^ (8 - 1) / (horovod_size : ℚ) - 1
  let valid_min : ℚ := (2 ^ (8 - 1) / (horovod_size : ℚ) - 1) * (-1)
  let x₁ := (x - global_min) / (global_max - global_min)
  let x₂ := x₁ * (valid_max - valid_min) + valid_min
  let x₃ : ℚ := ((roundHalfEven x₂ : ℤ) : ℚ)
  clip_by_value x₃ valid_min valid_max

/-- Downcasts a floating tensor to 8-bit: per-element quantization
followed by a cast to int8; non-floating tensors pass through.  The
context is the original dtype. -/
def compress (tensor : Tensor) (horovod_size : ℕ)
    (global_max global_min : ℚ) : Tensor × DType :=
  if tensor.dtype.is_floating then
    let quantized : Tensor :=
      ⟨tensor.dtype, tensor.data.map (quantizeVal horovod_size global_max global_min)⟩
    (tf_cast quantized .int8, tensor.dtype)
  else (tensor, tensor.dtype)

/-- Upcasts the tensor to the dtype recorded in the context and
inverts the affine map over the full signed 8-bit range. -/
def decompress (tensor : Tensor) (ctx : DType)
    (global_max global_min : ℚ) : Tensor :=
  if ctx.is_floating then
    let valid_max : ℚ := 2 ^ (8 - 1) - 1
    let valid_min : ℚ := (2 ^ (8 - 1) - 1) * (-1)
    let casted := tf_cast tensor ctx
    ⟨ctx, casted.data.map (fun x =>
      (x - valid_min) / (valid_max - valid_min) * (global_max - global_min)
        + global_min)⟩
  else tensor

end INT8Compressor

/-!
Specification-side definitions: restatements of the claimed
behaviour in the words of the specification, to be compared with the
definitions embedded from the source.
-/

/-- The INT8 compression formula as the specification words it:
valid_max = 2^7/horovod_size - 1, valid_min = -valid_max, each
element mapped by round, then clipped, then cast to signed 8-bit,
paired with the original dtype as context. -/
def int8_compress_spec (tensor : Tensor) (horovod_size : ℕ)
    (global_max global_min : ℚ) : Tensor × DType :=
  let valid_max : ℚ := 2 ^ 7 / (horovod_size : ℚ) - 1
  let valid_min : ℚ := -valid_max
  (⟨.int8, tensor.data.map (fun x =>
      ((wrap8 (ratTrunc (clip_by_value
        ((roundHalfEven ((x - global_min) / (global_max - global_min)
            * (valid_max - valid_min) + valid_min) : ℤ) : ℚ)
        valid_min valid_max)) : ℤ) : ℚ))⟩,
   tensor.dtype)

/-- The INT8 decompression formula as the specification words it:
full range valid_max = 127, valid_min = -127, the tensor cast to the
recorded dtype and mapped by the inverse affine formula; a
non-floating recorded dtype passes the tensor through unchanged. -/
def int8_decompress_spec (tensor : Tensor) (ctx : DType)
    (global_max global_min : ℚ) : Tensor :=
  if ctx.is_floating then
    ⟨ctx, tensor.data.map (fun x =>
      (castVal ctx x - (-127)) / (127 - (-127)) * (global_max - global_min)
        + global_min)⟩
  else tensor

/-- Elementwise sum of two tensors, the aggregation step the
allreduce engine performs on the quantized payloads between
compression and decompression. -/
def tensorAdd (a b : Tensor) : Tensor :=
  ⟨a.dtype, List.zipWith (· + ·) a.data b.data⟩

/-- The quantization step of the compression-time affine map, as the
specification defines it: the global range divided by the width of
the shrunk valid integer range. -/
def quantStep (horovod_size : ℕ) (global_max global_min : ℚ) : ℚ :=
  (global_max - global_min) /
    ((2 ^ 7 / (horovod_size : ℚ) - 1) - (2 ^ 7 / (horovod_size : ℚ) - 1) * (-1))

/-!
Helper lemmas about rounding, clipping and the int8 cast.
-/

/-- Rounding half to even never goes below the floor. -/
theorem floor_le_roundHalfEven (q : ℚ) : ⌊q⌋ ≤ roundHalfEven q := by
  unfold roundHalfEven
  split
  · exact le_refl _
  · split
    · exact Int.le_add_one (le_refl _)
    · split
      · exact le_refl _
      · exact Int.le_add_one (le_refl _)

/-- Rounding half to even never goes above the ceiling. -/
theorem roundHalfEven_le_ceil (q : ℚ) : roundHalfEven q ≤ ⌈q⌉ := by
  unfold roundHalfEven
  have hfc : ⌊q⌋ ≤ ⌈q⌉ := Int.floor_le_ceil q
  split
  · exact hfc
  · have hlt : (1 : ℚ) / 2 ≤ q - ⌊q⌋ := le_of_not_lt (by assumption)
    have hq : (⌊q⌋ : ℚ) < q := by linarith
    have h1 : ⌊q⌋ + 1 ≤ ⌈q⌉ := Int.add_one_le_iff.mpr (Int.lt_ceil.mpr hq)
    split
    · exact h1
    · split
      · exact hfc
      · exact h1

/-- Clipping a value that is at least the upper bound yields the
upper bound. -/
theorem clip_by_value_eq_hi {q lo hi : ℚ} (h1 : hi ≤ q) (h2 : lo ≤ hi) :
    clip_by_value q lo hi = hi := by
  simp only [clip_by_value]
  rw [max_eq_left (h2.trans h1), min_eq_right h1]

/-- Clipping a value that is at most the lower bound yields the
lower bound. -/
theorem clip_by_value_eq_lo {q lo hi : ℚ} (h1 : q ≤ lo) (h2 : lo ≤ hi) :
    clip_by_value q lo hi = lo := by
  simp only [clip_by_value]
  rw [max_eq_right h1, min_eq_left h2]

/-- The cast to int8 is the identity on integer values inside the
signed 8-bit range. -/
theorem castVal_int8_of_bounds (n : ℤ) (h1 : -128 ≤ n) (h2 : n ≤ 127) :
    castVal .int8 ((n : ℤ) : ℚ) = ((n : ℤ) : ℚ) := by
  have ht : ratTrunc ((n : ℤ) : ℚ) = n := by
    unfold ratTrunc
    split
    · exact Int.ceil_intCast n
    · exact Int.floor_intCast n
  have hw : wrap8 n = n := by
    unfold wrap8
    rw [Int.emod_eq_of_lt (by omega) (by omega)]
    omega
  simp [castVal, DType.is_floating, ht, hw]

/-- A value above the global maximum quantizes to the upper boundary
of the shrunk valid range, here written as the integer k - 1 where
horovod_size * k = 128. -/
theorem quantizeVal_of_gt_max (hs : ℕ) (k : ℕ) (hk : hs * k = 128) (hs1 : 1 ≤ hs)
    (gmax gmin x : ℚ) (hr : gmin < gmax) (hx : gmax < x) :
    INT8Compressor.quantizeVal hs gmax gmin x = (k : ℚ) - 1 := by
  have hsq : (hs : ℚ) ≠ 0 := Nat.cast_ne_zero.mpr (by omega)
  have hkq : ((hs : ℚ)) * (k : ℚ) = 128 := by exact_mod_cast hk
  have hV : (2 : ℚ) ^ (8 - 1) / (hs : ℚ) - 1 = (k : ℚ) - 1 := by
    have h2 : (2 : ℚ) ^ (8 - 1) = (hs : ℚ) * (k : ℚ) := by rw [hkq]; norm_num
    rw [h2, mul_div_cancel_left₀ _ hsq]
  have hk1 : 1 ≤ k := by
    rcases Nat.eq_zero_or_pos k with h | h
    · subst h; simp at hk
    · exact h
  have hkQ1 : (1 : ℚ) ≤ (k : ℚ) := by exact_mod_cast hk1
  unfold INT8Compressor.quantizeVal
  rw [hV]
  dsimp only
  set V : ℚ := (k : ℚ) - 1 with hVdef
  have hVnn : (0 : ℚ) ≤ V := by rw [hVdef]; linarith
  have hden : (0 : ℚ) < gmax - gmin := by linarith
  have hnorm : (1 : ℚ) < (x - gmin) / (gmax - gmin) := by
    rw [lt_div_iff₀ hden]
    linarith
  set x₂ : ℚ := (x - gmin) / (gmax - gmin) * (V - V * (-1)) + V * (-1) with hx2def
  have hx2 : V ≤ x₂ := by
    rw [hx2def]
    nlinarith
  have hle : (((k : ℤ) - 1 : ℤ) : ℚ) ≤ x₂ := by
    push_cast
    rw [← hVdef]
    exact hx2
  have hr1 : ((k : ℤ) - 1 : ℤ) ≤ roundHalfEven x₂ :=
    le_trans (Int.le_floor.mpr hle) (floor_le_roundHalfEven _)
  have hr2 : V ≤ ((roundHalfEven x₂ : ℤ) : ℚ) := by
    rw [hVdef]
    exact_mod_cast hr1
  exact clip_by_value_eq_hi hr2 (by linarith)

/-- A value below the global minimum quantizes to the lower boundary
of the shrunk valid range. -/
theorem quantizeVal_of_lt_min (hs : ℕ) (k : ℕ) (hk : hs * k = 128) (hs1 : 1 ≤ hs)
    (gmax gmin x : ℚ) (hr : gmin < gmax) (hx : x < gmin) :
    INT8Compressor.quantizeVal hs gmax gmin x = ((k : ℚ) - 1) * (-1) := by
  have hsq : (hs : ℚ) ≠ 0 := Nat.cast_ne_zero.mpr (by omega)
  have hkq : ((hs : ℚ)) * (k : ℚ) = 128 := by exact_mod_cast hk
  have hV : (2 : ℚ) ^ (8 - 1) / (hs : ℚ) - 1 = (k : ℚ) - 1 := by
    have h2 : (2 : ℚ) ^ (8 - 1) = (hs : ℚ) * (k : ℚ) := by rw [hkq]; norm_num
    rw [h2, mul_div_cancel_left₀ _ hsq]
  have hk1 : 1 ≤ k := by
    rcases Nat.eq_zero_or_pos k with h | h
    · subst h; simp at hk
    · exact h
  have hkQ1 : (1 : ℚ) ≤ (k : ℚ) := by exact_mod_cast hk1
  unfold INT8Compressor.quantizeVal
  rw [hV]
  dsimp only
  set V : ℚ := (k : ℚ) - 1 with hVdef
  have hVnn : (0 : ℚ) ≤ V := by rw [hVdef]; linarith
  have hden : (0 : ℚ) < gmax - gmin := by linarith
  have hnorm : (x - gmin) / (gmax - gmin) < 0 :=
    div_neg_of_neg_of_pos (by linarith) hden
  set x₂ : ℚ := (x - gmin) / (gmax - gmin) * (V - V * (-1)) + V * (-1) with hx2def
  have hx2 : x₂ ≤ V * (-1) := by
    rw [hx2def]
    nlinarith
  have hle : x₂ ≤ ((-((k : ℤ) - 1) : ℤ) : ℚ) := by
    push_cast
    rw [show -((k : ℚ) - 1) = V * (-1) by rw [hVdef]; ring]
    exact hx2
  have hr1 : roundHalfEven x₂ ≤ -((k : ℤ) - 1) := by
    refine le_trans (roundHalfEven_le_ceil _) ?_
    rw [← Int.ceil_intCast (α := ℚ) (-((k : ℤ) - 1))]
    exact Int.ceil_mono hle
  have hr2 : ((roundHalfEven x₂ : ℤ) : ℚ) ≤ V * (-1) := by
    rw [show V * (-1) = ((-((k : ℤ) - 1) : ℤ) : ℚ) by rw [hVdef]; push_cast; ring]
    exact_mod_cast hr1
  exact clip_by_value_eq_lo hr2 (by rw [hVdef]; nlinarith)

/-!
Claim theorems.
-/

/-- Claim C1, as stated, is false: with horovod_size 4, global range
0 to 4, four peers each quantizing 1.0, summing the quantized int8
payloads and decompressing with the full range yields 126/127, which
is not within 4 * step / 2 of 4.0. -/
theorem c1_sum_then_decompress_not_sum :
    ¬ |(INT8Compressor.decompress
          (tensorAdd (INT8Compressor.compress ⟨.float32, [1]⟩ 4 4 0).1
            (tensorAdd (INT8Compressor.compress ⟨.float32, [1]⟩ 4 4 0).1
              (tensorAdd (INT8Compressor.compress ⟨.float32, [1]⟩ 4 4 0).1
                (INT8Compressor.compress ⟨.float32, [1]⟩ 4 4 0).1)))
          .float32 4 0).data.headI - 4| ≤ 4 * quantStep 4 4 0 / 2 := by
  have hc : INT8Compressor.compress ⟨.float32, [1]⟩ 4 4 0 = (⟨.int8, [-16]⟩, .float32) := by
    simp only [INT8Compressor.compress, INT8Compressor.quantizeVal, tf_cast, castVal,
      clip_by_value, roundHalfEven, ratTrunc, wrap8, DType.is_floating, List.map,
      min_def, max_def]
    norm_num [Int.ceil_neg, Int.floor_ofNat]
  rw [hc]
  have hsum : tensorAdd ⟨.int8, [-16]⟩
      (tensorAdd ⟨.int8, [-16]⟩ (tensorAdd ⟨.int8, [-16]⟩ ⟨.int8, [-16]⟩)) = ⟨.int8, [-64]⟩ := by
    simp only [tensorAdd, List.zipWith]
    norm_num
  simp only at hsum ⊢
  rw [hsum]
  have hd : INT8Compressor.decompress ⟨.int8, [-64]⟩ .float32 4 0 = ⟨.float32, [126/127]⟩ := by
    simp only [INT8Compressor.decompress, tf_cast, castVal, DType.is_floating, List.map]
    norm_num
  rw [hd]
  simp only [List.headI]
  rw [show quantStep 4 4 0 = 2 / 31 by norm_num [quantStep]]
  rw [abs_le]
  norm_num

/-- Claim C1 amended: in the same scenario the reconstructed value
approximates 1.0, the average of the four peer values rather than
their sum, within cumulative quantization error at most
4 * step / 2 where step is the compression-time quantization step. -/
theorem c1_sum_then_decompress_average :
    |(INT8Compressor.decompress
          (tensorAdd (INT8Compressor.compress ⟨.float32, [1]⟩ 4 4 0).1
            (tensorAdd (INT8Compressor.compress ⟨.float32, [1]⟩ 4 4 0).1
              (tensorAdd (INT8Compressor.compress ⟨.float32, [1]⟩ 4 4 0).1
                (INT8Compressor.compress ⟨.float32, [1]⟩ 4 4 0).1)))
          .float32 4 0).data.headI - 1| ≤ 4 * quantStep 4 4 0 / 2 := by
  have hc : INT8Compressor.compress ⟨.float32, [1]⟩ 4 4 0 = (⟨.int8, [-16]⟩, .float32) := by
    simp only [INT8Compressor.compress, INT8Compressor.quantizeVal, tf_cast, castVal,
      clip_by_value, roundHalfEven, ratTrunc, wrap8, DType.is_floating, List.map,
      min_def, max_def]
    norm_num [Int.ceil_neg, Int.floor_ofNat]
  rw [hc]
  have hsum : tensorAdd ⟨.int8, [-16]⟩
      (tensorAdd ⟨.int8, [-16]⟩ (tensorAdd ⟨.int8, [-16]⟩ ⟨.int8, [-16]⟩)) = ⟨.int8, [-64]⟩ := by
    simp only [tensorAdd, List.zipWith]
    norm_num
  simp only at hsum ⊢
  rw [hsum]
  have hd : INT8Compressor.decompress ⟨.int8, [-64]⟩ .float32 4 0 = ⟨.float32, [126/127]⟩ := by
    simp only [INT8Compressor.decompress, tf_cast, castVal, DType.is_floating, List.map]
    norm_num
  rw [hd]
  simp only [List.headI]
  rw [show quantStep 4 4 0 = 2 / 31 by norm_num [quantStep]]
  rw [abs_le]
  norm_num

/-- Claim C2: on floating tensors with horovod_size at least 1 and
global_max above global_min, INT8 compression computes exactly the
formula the specification states: valid_max = 2^7/horovod_size - 1,
valid_min = -valid_max, normalize, affine-map, round, clip, cast to
signed 8-bit, paired with the original dtype as context. -/
theorem c2_int8_compress_matches_spec (t : Tensor) (hs : ℕ) (gmax gmin : ℚ)
    (hfl : t.dtype.is_floating = true) (hhs : 1 ≤ hs) (hr : gmin < gmax) :
    INT8Compressor.compress t hs gmax gmin = int8_compress_spec t hs gmax gmin := by
  unfold INT8Compressor.compress int8_compress_spec
  simp only [hfl, if_true, tf_cast, List.map_map]
  refine Prod.ext ?_ rfl
  refine congrArg (Tensor.mk .int8) ?_
  refine List.map_congr_left (fun x _ => ?_)
  simp only [Function.comp, INT8Compressor.quantizeVal, castVal, DType.is_floating,
    Bool.false_eq_true, if_false, if_pos rfl, mul_neg_one]
  norm_num

/-- Witness for C2 at the concrete input of the roundtrip scenario. -/
theorem c2_int8_compress_matches_spec_witness :
    (Tensor.mk .float32 [1/2]).dtype.is_floating = true ∧ 1 ≤ 1 ∧ (-1 : ℚ) < 1 ∧
    INT8Compressor.compress ⟨.float32, [1/2]⟩ 1 1 (-1)
      = int8_compress_spec ⟨.float32, [1/2]⟩ 1 1 (-1) :=
  ⟨rfl, le_refl 1, by norm_num,
    c2_int8_compress_matches_spec ⟨.float32, [1/2]⟩ 1 1 (-1) rfl (le_refl 1) (by norm_num)⟩

/-- Claim C3: INT8 decompression computes exactly the formula the
specification states, with the full signed 8-bit half-range 127 not
divided by horovod_size, casting to the recorded dtype when that
dtype is floating and passing the tensor through unchanged
otherwise. -/
theorem c3_int8_decompress_matches_spec (t : Tensor) (ctx : DType) (gmax gmin : ℚ) :
    INT8Compressor.decompress t ctx gmax gmin = int8_decompress_spec t ctx gmax gmin := by
  unfold INT8Compressor.decompress int8_decompress_spec
  by_cases hc : ctx.is_floating
  · simp only [hc, if_true, tf_cast, List.map_map]
    refine congrArg (Tensor.mk ctx) ?_
    refine List.map_congr_left (fun x _ => ?_)
    simp only [Function.comp]
    norm_num
  · simp [hc]

/-- Claim C4, as stated, is false for NoneCompressor: its compress
returns the context None, not the dtype of the tensor. -/
theorem c4_none_compress_context_is_none :
    NoneCompressor.compress ⟨.int32, [5]⟩ ≠ (⟨.int32, [5]⟩, some DType.int32) := by
  simp [NoneCompressor.compress]

/-- Claim C4 amended: every strategy passes a non-floating tensor
through unchanged in both directions; FP16Compressor and
INT8Compressor pair it with its dtype as context, while
NoneCompressor pairs it with the empty context None and its
decompress ignores the context. -/
theorem c4_nonfloating_passthrough (t : Tensor) (hs : ℕ) (gmax gmin : ℚ)
    (oc : Option DType) (h : t.dtype.is_floating = false) :
    NoneCompressor.compress t = (t, (none : Option DType)) ∧
    NoneCompressor.decompress t oc = t ∧
    FP16Compressor.compress t = (t, t.dtype) ∧
    FP16Compressor.decompress t t.dtype = t ∧
    INT8Compressor.compress t hs gmax gmin = (t, t.dtype) ∧
    INT8Compressor.decompress t t.dtype gmax gmin = t := by
  refine ⟨rfl, rfl, ?_, ?_, ?_, ?_⟩ <;>
    simp [FP16Compressor.compress, FP16Compressor.decompress,
      INT8Compressor.compress, INT8Compressor.decompress, h]

/-- Witness for the amended C4 at a concrete int32 tensor. -/
theorem c4_nonfloating_passthrough_witness :
    (Tensor.mk .int32 [7]).dtype.is_floating = false ∧
    INT8Compressor.compress ⟨.int32, [7]⟩ 2 1 0 = (⟨.int32, [7]⟩, DType.int32) :=
  ⟨rfl, (c4_nonfloating_passthrough ⟨.int32, [7]⟩ 2 1 0 none rfl).2.2.2.2.1⟩

/-- Claim C5: with horovod_size 1 and global range -1 to 1, the
value 0.5 compresses to the int8 value 64 and decompresses to
64/127, which is within one quantization step (2/254) of 0.5. -/
theorem c5_int8_roundtrip_half_step :
    INT8Compressor.decompress (INT8Compressor.compress ⟨.float32, [1/2]⟩ 1 1 (-1)).1
        (INT8Compressor.compress ⟨.float32, [1/2]⟩ 1 1 (-1)).2 1 (-1)
      = ⟨.float32, [64/127]⟩
    ∧ |(64 : ℚ)/127 - 1/2| ≤ (1 - (-1)) / 254 := by
  have hc : INT8Compressor.compress ⟨.float32, [1/2]⟩ 1 1 (-1) = (⟨.int8, [64]⟩, .float32) := by
    simp only [INT8Compressor.compress, INT8Compressor.quantizeVal, tf_cast, castVal,
      clip_by_value, roundHalfEven, ratTrunc, wrap8, DType.is_floating, List.map,
      min_def, max_def]
    norm_num
  rw [hc]
  constructor
  · simp only [INT8Compressor.decompress, tf_cast, castVal, DType.is_floating, List.map]
    norm_num
  · rw [abs_le]
    constructor <;> norm_num

/-- Claim C6, as stated, is false for values below the global
minimum: with horovod_size 1 and global range -1 to 1 the value -5
compresses to -127, the lower boundary, not to valid_max = 127. -/
theorem c6_below_min_clips_to_valid_min :
    (INT8Compressor.compress ⟨.float32, [-5]⟩ 1 1 (-1)).1 = ⟨.int8, [-127]⟩
    ∧ ((-127 : ℚ)) ≠ 2 ^ 7 / ((1 : ℕ) : ℚ) - 1 := by
  constructor
  · simp only [INT8Compressor.compress, INT8Compressor.quantizeVal, tf_cast, castVal,
      clip_by_value, roundHalfEven, ratTrunc, wrap8, DType.is_floating, List.map,
      min_def, max_def]
    norm_num [Int.ceil_neg, Int.floor_ofNat]
  · norm_num

/-- Claim C6 amended: for horovod_size dividing 128 (so the shrunk
boundary is an integer) and global_max above global_min, a floating
value above global_max compresses to the boundary integer valid_max
and a value below global_min compresses to the boundary integer
valid_min = -valid_max, with no overflow of the signed 8-bit
domain. -/
theorem c6_out_of_range_clips_to_boundary (d : DType) (hs : ℕ) (gmax gmin x : ℚ)
    (hd : d.is_floating = true) (hs1 : 1 ≤ hs) (hdvd : hs ∣ 128) (hr : gmin < gmax) :
    (gmax < x →
      (INT8Compressor.compress ⟨d, [x]⟩ hs gmax gmin).1
        = ⟨.int8, [2 ^ 7 / (hs : ℚ) - 1]⟩) ∧
    (x < gmin →
      (INT8Compressor.compress ⟨d, [x]⟩ hs gmax gmin).1
        = ⟨.int8, [(2 ^ 7 / (hs : ℚ) - 1) * (-1)]⟩) := by
  obtain ⟨k, hk⟩ := hdvd
  have hk' : hs * k = 128 := hk.symm
  have hsq : (hs : ℚ) ≠ 0 := Nat.cast_ne_zero.mpr (by omega)
  have hkq : ((hs : ℚ)) * (k : ℚ) = 128 := by exact_mod_cast hk'
  have hV : (2 : ℚ) ^ 7 / (hs : ℚ) - 1 = (k : ℚ) - 1 := by
    have h2 : (2 : ℚ) ^ 7 = (hs : ℚ) * (k : ℚ) := by rw [hkq]; norm_num
    rw [h2, mul_div_cancel_left₀ _ hsq]
  have hk1 : 1 ≤ k := by
    rcases Nat.eq_zero_or_pos k with h | h
    · subst h; simp at hk'
    · exact h
  have hk128 : k ≤ 128 := Nat.le_of_dvd (by norm_num) ⟨hs, by rw [Nat.mul_comm, hk']⟩
  have hcast1 : castVal .int8 ((k : ℚ) - 1) = (k : ℚ) - 1 := by
    have := castVal_int8_of_bounds ((k : ℤ) - 1) (by omega) (by omega)
    rw [show (((k : ℤ) - 1 : ℤ) : ℚ) = (k : ℚ) - 1 by push_cast; ring] at this
    exact this
  have hcast2 : castVal .int8 (((k : ℚ) - 1) * (-1)) = ((k : ℚ) - 1) * (-1) := by
    have := castVal_int8_of_bounds (-((k : ℤ) - 1)) (by omega) (by omega)
    rw [show ((-((k : ℤ) - 1) : ℤ) : ℚ) = ((k : ℚ) - 1) * (-1) by push_cast; ring] at this
    exact this
  constructor
  · intro hx
    simp only [INT8Compressor.compress, hd, if_true, tf_cast, List.map_cons, List.map_nil,
      List.map_map, Function.comp]
    rw [hV]
    rw [quantizeVal_of_gt_max hs k hk' hs1 gmax gmin x hr hx, hcast1]
  · intro hx
    simp only [INT8Compressor.compress, hd, if_true, tf_cast, List.map_cons, List.map_nil,
      List.map_map, Function.comp]
    rw [hV]
    rw [quantizeVal_of_lt_min hs k hk' hs1 gmax gmin x hr hx, hcast2]

/-- Witness for the amended C6: the value 5 above the range -1 to 1
with horovod_size 1 compresses to the upper boundary. -/
theorem c6_out_of_range_clips_to_boundary_witness :
    DType.is_floating .float32 = true ∧ 1 ≤ 1 ∧ 1 ∣ 128 ∧ (-1 : ℚ) < 1 ∧
    (INT8Compressor.compress ⟨.float32, [5]⟩ 1 1 (-1)).1
      = ⟨.int8, [2 ^ 7 / ((1 : ℕ) : ℚ) - 1]⟩ :=
  ⟨rfl, le_refl 1, ⟨128, rfl⟩, by norm_num,
    (c6_out_of_range_clips_to_boundary .float32 1 1 (-1) 5 rfl (le_refl 1)
      ⟨128, rfl⟩ (by norm_num)).1 (by norm_num)⟩

/-- Claim C7: FP16 compression casts floating tensors to float16 and
leaves others unchanged, always pairing with the original dtype; its
decompression casts back when the context dtype is floating and
passes through otherwise; consequently the dtype of a compress and
decompress roundtrip of a floating tensor equals the original
dtype. -/
theorem c7_fp16_cast_dispatch (t : Tensor) (d : DType) :
    (t.dtype.is_floating = true → FP16Compressor.compress t = (tf_cast t .float16, t.dtype)) ∧
    (t.dtype.is_floating = false → FP16Compressor.compress t = (t, t.dtype)) ∧
    (d.is_floating = true → FP16Compressor.decompress t d = tf_cast t d) ∧
    (d.is_floating = false → FP16Compressor.decompress t d = t) ∧
    (t.dtype.is_floating = true →
      (FP16Compressor.decompress (FP16Compressor.compress t).1
        (FP16Compressor.compress t).2).dtype = t.dtype) := by
  refine ⟨?_, ?_, ?_, ?_, ?_⟩ <;> intro h <;>
    simp [FP16Compressor.compress, FP16Compressor.decompress, tf_cast, h]

/-- Witness for C7: the dtype of a roundtrip of a float32 tensor is
float32. -/
theorem c7_fp16_cast_dispatch_witness :
    (FP16Compressor.decompress (FP16Compressor.compress ⟨.float32, [1]⟩).1
      (FP16Compressor.compress ⟨.float32, [1]⟩).2).dtype = DType.float32 :=
  (c7_fp16_cast_dispatch ⟨.float32, [1]⟩ .float16).2.2.2.2 rfl

/-- Claim C8: NoneCompressor compression returns the tensor with the
empty context and decompressing that pair returns a tensor equal to
the original, an exact identity roundtrip. -/
theorem c8_none_identity_roundtrip (t : Tensor) :
    NoneCompressor.compress t = (t, (none : Option DType)) ∧
    NoneCompressor.decompress (NoneCompressor.compress t).1 (NoneCompressor.compress t).2 = t :=
  ⟨rfl, rfl⟩

/-- Claim C9: each compress and decompress operation of the three
strategies is a pure function of its arguments: calls on equal
inputs, including the horovod_size and the global range parameters
of INT8, return equal outputs. -/
theorem c9_compressors_deterministic (t t' : Tensor) (oc oc' : Option DType) (c c' : DType)
    (hs hs' : ℕ) (gmax gmax' gmin gmin' : ℚ)
    (ht : t = t') (hoc : oc = oc') (hc : c = c') (hhs : hs = hs')
    (hgmax : gmax = gmax') (hgmin : gmin = gmin') :
    NoneCompressor.compress t = NoneCompressor.compress t' ∧
    NoneCompressor.decompress t oc = NoneCompressor.decompress t' oc' ∧
    FP16Compressor.compress t = FP16Compressor.compress t' ∧
    FP16Compressor.decompress t c = FP16Compressor.decompress t' c' ∧
    INT8Compressor.compress t hs gmax gmin = INT8Compressor.compress t' hs' gmax' gmin' ∧
    INT8Compressor.decompress t c gmax gmin = INT8Compressor.decompress t' c' gmax' gmin' := by
  subst ht; subst hoc; subst hc; subst hhs; subst hgmax; subst hgmin
  exact ⟨rfl, rfl, rfl, rfl, rfl, rfl⟩

/-- Witness for C9 at a concrete repeated INT8 compression call. -/
theorem c9_compressors_deterministic_witness :
    INT8Compressor.compress ⟨.float32, [1/2]⟩ 1 1 (-1)
      = INT8Compressor.compress ⟨.float32, [1/2]⟩ 1 1 (-1) :=
  (c9_compressors_deterministic ⟨.float32, [1/2]⟩ ⟨.float32, [1/2]⟩ none none
    .float32 .float32 1 1 1 1 (-1) (-1) rfl rfl rfl rfl rfl rfl).2.2.2.2.1

/-- Claim C10: with horovod_size 128 the shrunk valid range is the
single integer 0, so INT8 compression of any floating tensor with
global_max above global_min returns the all-zero int8 payload: no
information about the element values survives. -/
theorem c10_size128_compress_all_zero (t : Tensor) (gmax gmin : ℚ)
    (hfl : t.dtype.is_floating = true) (hr : gmin < gmax) :
    (INT8Compressor.compress t 128 gmax gmin).1
      = ⟨.int8, List.replicate t.data.length (0 : ℚ)⟩ := by
  have hq : ∀ x : ℚ, castVal .int8 (INT8Compressor.quantizeVal 128 gmax gmin x) = 0 := by
    intro x
    have hz : INT8Compressor.quantizeVal 128 gmax gmin x = 0 := by
      unfold INT8Compressor.quantizeVal
      norm_num [clip_by_value, roundHalfEven]
    rw [hz]
    norm_num [castVal, ratTrunc, wrap8, DType.is_floating]
  simp only [INT8Compressor.compress, hfl, if_true, tf_cast, List.map_map]
  refine congrArg (Tensor.mk .int8) ?_
  rw [show (castVal .int8 ∘ INT8Compressor.quantizeVal 128 gmax gmin) = fun _ : ℚ => (0 : ℚ)
    from funext fun x => hq x]
  exact List.map_const' t.data 0

/-- Witness for C10 at a concrete three-element floating tensor. -/
theorem c10_size128_compress_all_zero_witness :
    DType.is_floating .float32 = true ∧ (-2 : ℚ) < 2 ∧
    (INT8Compressor.compress ⟨.float32, [3, -7, 1/3]⟩ 128 2 (-2)).1
      = ⟨.int8, List.replicate 3 (0 : ℚ)⟩ :=
  ⟨rfl, by norm_num, c10_size128_compress_all_zero ⟨.float32, [3, -7, 1/3]⟩ 2 (-2) rfl (by norm_num)⟩
